import Mathlib

/-!
Verification development for the NIP-29 group-state core of this repository.

The Go code under `nip29/` is embedded shallowly:

* `Group`, `Role` and the snapshot/merge functions come from `nip29/group.go`
  (`ToMetadataEvent`, `ToAdminsEvent`, `ToMembersEvent`, `MergeInMetadataEvent`,
  `MergeInAdminsEvent`, `MergeInMembersEvent`);
* the moderation actions and their factories come from `nip29/relay.go`.

Go maps (`map[string]*Role`, `map[Permission]struct{}`) become an association
list with Go update semantics and a `Finset String`; the `*Role` pointer is an
`Option Role` whose `none` is the shared `EmptyRole = nil` sentinel.  Functions
that mutate through the `*Group` receiver and return an `error` become
`Group → Event → Group × Option String`, the first component being the state of
the receiver when the function returns and the second the returned error.
Helpers of the wider repository that are not part of the sources here
(`Tags.GetFirst`, `Tags.GetAll`, `Tags.GetD`, `IsValidPublicKeyHex`, the kind
constants) are modelled from the spec, as marked on their doc comments.
A slice write out of range, which panics in Go, is modelled by `Option`:
`none` is the panic.
-/

namespace Nip29

/-- Timestamp mirrors `nostr.Timestamp`, an `int64` count of seconds.  The
merge functions only compare and copy timestamps, so `Int` with the `int64`
minimum made explicit is a faithful carrier. -/
abbrev Timestamp := Int

/-- Smallest value of the 64-bit signed timestamp carrier. -/
def minTimestamp : Timestamp := -(2 ^ 63)

/-- Permission mirrors the Go `Permission` string type. -/
abbrev Permission := String

/-- Modelled from the spec: the external protocol kind numbers are opaque
discriminators; only their distinctness matters.  The NIP-29 numbers used by
the repository are kept. -/
def KindSimpleGroupMetadata : Int := 39000

/-- Modelled from the spec: kind discriminator of the admins snapshot. -/
def KindSimpleGroupAdmins : Int := 39001

/-- Modelled from the spec: kind discriminator of the members snapshot. -/
def KindSimpleGroupMembers : Int := 39002

/-- Event is the part of `nostr.Event` this core reads and writes. -/
structure Event where
  Kind : Int
  CreatedAt : Timestamp
  Content : String
  Tags : List (List String)
deriving DecidableEq

/-- Modelled from the spec: tag-shape matching used by the repository's tag
lookups (`Tag.StartsWith`, outside these sources).  A tag matches a pattern
when it is at least as long, agrees with every pattern position before the
last, and the last pattern position is either the empty-string wildcard for
the value or equal to the tag's entry there. -/
def tagStartsWith : List String → List String → Bool
  | _, [] => true
  | [], _ :: _ => false
  | t :: _, [p] => p = "" || p = t
  | t :: ts, p :: ps => p = t && tagStartsWith ts ps

/-- Modelled from the spec: `Tags.GetFirst` returns the first tag matching the
pattern. -/
def GetFirst (tags : List (List String)) (pat : List String) : Option (List String) :=
  tags.find? (fun t => tagStartsWith t pat)

/-- Modelled from the spec: `Tags.GetAll` returns every tag matching the
pattern. -/
def GetAll (tags : List (List String)) (pat : List String) : List (List String) :=
  tags.filter (fun t => tagStartsWith t pat)

/-- Modelled from the spec: `Tags.GetD` returns the value of the first `d` tag,
or the empty string when there is none. -/
def GetD (tags : List (List String)) : String :=
  match GetFirst tags ["d", ""] with
  | some t => t.getD 1 ""
  | none => ""

/-- Modelled from the spec: a participant identifier is a fixed-length
public-key token, 64 lowercase hexadecimal characters
(`nostr.IsValidPublicKeyHex`, outside these sources). -/
def IsValidPublicKeyHex (s : String) : Bool :=
  s.length = 64 && s.data.all (fun c => c.isDigit || ("a" ≤ c.toString && c.toString ≤ "f"))

/-- Role is `nip29.Role`: a display name and a set of permissions
(`map[Permission]struct{}` becomes a `Finset`). -/
structure Role where
  Name : String
  Permissions : Finset Permission
deriving DecidableEq

/-- Members is the Go `map[string]*Role`: an association list with unique
keys; the value `none` is the shared `EmptyRole = nil` sentinel. -/
abbrev Members := List (String × Option Role)

/-- Go map read: `role, ok := m[k]` — `none` is `ok = false`. -/
def mapLookup (m : Members) (k : String) : Option (Option Role) :=
  match m with
  | [] => none
  | (k', v) :: rest => if k' = k then some v else mapLookup rest k

/-- Go map write `m[k] = v`: update in place, appending when absent. -/
def mapInsert (m : Members) (k : String) (v : Option Role) : Members :=
  match m with
  | [] => [(k, v)]
  | (k', v') :: rest => if k' = k then (k', v) :: rest else (k', v') :: mapInsert rest k v

/-- Go `delete(m, k)`. -/
def mapDelete (m : Members) (k : String) : Members :=
  match m with
  | [] => []
  | (k', v') :: rest => if k' = k then rest else (k', v') :: mapDelete rest k

/-- Group is the `nip29.Group` aggregate. -/
structure Group where
  ID : String
  Name : String
  Picture : String
  About : String
  Members : Members
  Private : Bool
  Closed : Bool
  LastMetadataUpdate : Timestamp
  LastAdminsUpdate : Timestamp
  LastMembersUpdate : Timestamp
deriving DecidableEq

/-- Go zero value of `Group`, as the caller creates it. -/
def zeroGroup : Group :=
  { ID := "", Name := "", Picture := "", About := "", Members := []
    Private := false, Closed := false
    LastMetadataUpdate := 0, LastAdminsUpdate := 0, LastMembersUpdate := 0 }

/-- Group.ToMetadataEvent.  The `about` tag carries `group.Name` — exactly as
the source writes it. -/
def Group.ToMetadataEvent (group : Group) : Event :=
  { Kind := KindSimpleGroupMetadata
    CreatedAt := group.LastMetadataUpdate
    Content := group.About
    Tags := [["d", group.ID]]
      ++ (if group.Name ≠ "" then [["name", group.Name]] else [])
      ++ (if group.About ≠ "" then [["about", group.Name]] else [])
      ++ (if group.Picture ≠ "" then [["picture", group.Picture]] else [])
      ++ (if group.Private then [["private"]] else [["public"]])
      ++ (if group.Closed then [["closed"]] else [["open"]]) }

/-- Go slice write `l[i] = v`: out of range is a panic, modelled as `none`. -/
def sliceSet (l : List String) (i : Nat) (v : String) : Option (List String) :=
  match l, i with
  | [], _ => none
  | _ :: rest, 0 => some (v :: rest)
  | x :: rest, n + 1 => (sliceSet rest n v).map (x :: ·)

/-- Group.ToAdminsEvent builds one `p` tag per member with a non-nil role by
writing into `tag := make([]string, 0, 3+len(role.Permissions))` at indices
0, 1, 2 and then appending the permissions. -/
def adminTag (member : String) (role : Role) : Option (List String) := do
  let tag : List String := []
  let tag ← sliceSet tag 0 "p"
  let tag ← sliceSet tag 1 member
  let tag ← sliceSet tag 2 role.Name
  pure (tag ++ role.Permissions.sort (· ≤ ·))

/-- Group.ToAdminsEvent; `none` is the panic of the out-of-range slice write
in the admin-tag construction. -/
def Group.ToAdminsEvent (group : Group) : Option Event := do
  let tags ← group.Members.foldlM
    (fun (acc : List (List String)) (entry : String × Option Role) =>
      match entry.2 with
      | none => pure acc
      | some role => do
          let t ← adminTag entry.1 role
          pure (acc ++ [t]))
    [["d", group.ID]]
  pure { Kind := KindSimpleGroupAdmins
         CreatedAt := group.LastAdminsUpdate
         Content := ""
         Tags := tags }

/-- Group.ToMembersEvent lists every member, admins included, as a `p` tag. -/
def Group.ToMembersEvent (group : Group) : Event :=
  { Kind := KindSimpleGroupMembers
    CreatedAt := group.LastMembersUpdate
    Content := ""
    Tags := ["d", group.ID] :: group.Members.map (fun entry => ["p", entry.1]) }

/-- Group.MergeInMetadataEvent.  The pair is the receiver's state on return
together with the returned error, `none` for success. -/
def Group.MergeInMetadataEvent (group : Group) (evt : Event) : Group × Option String :=
  if evt.Kind ≠ KindSimpleGroupMetadata then
    (group, some "unexpected kind")
  else if evt.CreatedAt ≤ group.LastMetadataUpdate then
    (group, some "event is older than our last update")
  else
    let g := { group with LastMetadataUpdate := evt.CreatedAt }
    let g := { g with ID := GetD evt.Tags }
    let g := { g with Name := g.ID }
    let g := match GetFirst evt.Tags ["name", ""] with
      | some t => { g with Name := t.getD 1 "" }
      | none => g
    let g := match GetFirst evt.Tags ["about", ""] with
      | some t => { g with About := t.getD 1 "" }
      | none => g
    let g := match GetFirst evt.Tags ["picture", ""] with
      | some t => { g with Picture := t.getD 1 "" }
      | none => g
    let g := if (GetFirst evt.Tags ["private"]).isSome then { g with Private := true } else g
    let g := if (GetFirst evt.Tags ["closed"]).isSome then { g with Closed := true } else g
    (g, none)

/-- Group.MergeInAdminsEvent.  After the kind and staleness gates the source
records the timestamp, then loops over the tags skipping entries that are
shorter than 3, are not `p` tags, or fail public-key validation; the loop body
does nothing further, so the scan changes neither the group nor the result. -/
def Group.MergeInAdminsEvent (group : Group) (evt : Event) : Group × Option String :=
  if evt.Kind ≠ KindSimpleGroupAdmins then
    (group, some "unexpected kind")
  else if evt.CreatedAt ≤ group.LastAdminsUpdate then
    (group, some "event is older than our last update")
  else
    ({ group with LastAdminsUpdate := evt.CreatedAt }, none)

/-- Group.MergeInMembersEvent.  Like the admins merge, the per-tag validation
loop of the source (length at least 2, `p` tag, valid public key) has no
effect on the group or the result. -/
def Group.MergeInMembersEvent (group : Group) (evt : Event) : Group × Option String :=
  if evt.Kind ≠ KindSimpleGroupMembers then
    (group, some "unexpected kind")
  else if evt.CreatedAt ≤ group.LastMembersUpdate then
    (group, some "event is older than our last update")
  else
    ({ group with LastMembersUpdate := evt.CreatedAt }, none)

/-- Modelled from the spec: kind discriminator of the add-user action. -/
def KindSimpleGroupAddUser : Int := 9000

/-- Modelled from the spec: kind discriminator of the remove-user action. -/
def KindSimpleGroupRemoveUser : Int := 9001

/-- Modelled from the spec: kind discriminator of the edit-metadata action. -/
def KindSimpleGroupEditMetadata : Int := 9002

/-- Modelled from the spec: kind discriminator of the add-permission action. -/
def KindSimpleGroupAddPermission : Int := 9003

/-- Modelled from the spec: kind discriminator of the remove-permission action. -/
def KindSimpleGroupRemovePermission : Int := 9004

/-- Modelled from the spec: kind discriminator of the delete-event action. -/
def KindSimpleGroupDeleteEvent : Int := 9005

/-- Modelled from the spec: kind discriminator of the edit-group-status action. -/
def KindSimpleGroupEditGroupStatus : Int := 9006

/-- DeleteEvent action from `relay.go`. -/
structure DeleteEvent where
  Targets : List String
deriving DecidableEq

/-- DeleteEvent.Apply does not touch the aggregate. -/
def DeleteEvent.Apply (_ : DeleteEvent) (group : Group) : Group := group

/-- AddUser action from `relay.go`. -/
structure AddUser where
  Targets : List String
deriving DecidableEq

/-- AddUser.Apply writes the `EmptyRole` sentinel for every target. -/
def AddUser.Apply (a : AddUser) (group : Group) : Group :=
  { group with Members := a.Targets.foldl (fun m target => mapInsert m target none) group.Members }

/-- RemoveUser action from `relay.go`. -/
structure RemoveUser where
  Targets : List String
deriving DecidableEq

/-- RemoveUser.Apply deletes every target from the membership map. -/
def RemoveUser.Apply (a : RemoveUser) (group : Group) : Group :=
  { group with Members := a.Targets.foldl (fun m target => mapDelete m target) group.Members }

/-- EditMetadata action from `relay.go`. -/
structure EditMetadata where
  NameValue : String
  PictureValue : String
  AboutValue : String
  When : Timestamp
deriving DecidableEq

/-- EditMetadata.Apply overwrites the three display fields and the metadata
timestamp unconditionally. -/
def EditMetadata.Apply (a : EditMetadata) (group : Group) : Group :=
  { group with Name := a.NameValue, Picture := a.PictureValue, About := a.AboutValue
               LastMetadataUpdate := a.When }

/-- AddPermission action from `relay.go`. -/
structure AddPermission where
  Targets : List String
  Permissions : List Permission
deriving DecidableEq

/-- Per-target step of AddPermission.Apply: a target that is absent or holds
the `EmptyRole` sentinel gets a freshly allocated anonymous role instead of a
write through the shared sentinel; then every listed permission is added. -/
def addPermissionStep (perms : List Permission) (m : Members) (target : String) : Members :=
  let role : Role :=
    match mapLookup m target with
    | some (some r) => r
    | _ => { Name := "", Permissions := ∅ }
  mapInsert m target (some { role with Permissions := role.Permissions ∪ perms.toFinset })

/-- AddPermission.Apply. -/
def AddPermission.Apply (a : AddPermission) (group : Group) : Group :=
  { group with Members := a.Targets.foldl (addPermissionStep a.Permissions) group.Members }

/-- RemovePermission action from `relay.go`. -/
structure RemovePermission where
  Targets : List String
  Permissions : List Permission
deriving DecidableEq

/-- Per-target step of RemovePermission.Apply: targets without an owned role
are skipped; the listed permissions are removed; an unnamed role left with no
permissions demotes the target to the `EmptyRole` sentinel. -/
def removePermissionStep (perms : List Permission) (m : Members) (target : String) : Members :=
  match mapLookup m target with
  | none => m
  | some none => m
  | some (some r) =>
      let role : Role := { r with Permissions := r.Permissions \ perms.toFinset }
      if role.Name = "" ∧ role.Permissions = ∅ then
        mapInsert m target none
      else
        mapInsert m target (some role)

/-- RemovePermission.Apply. -/
def RemovePermission.Apply (a : RemovePermission) (group : Group) : Group :=
  { group with Members := a.Targets.foldl (removePermissionStep a.Permissions) group.Members }

/-- EditGroupStatus action from `relay.go`. -/
structure EditGroupStatus where
  Public : Bool
  Private : Bool
  Open : Bool
  Closed : Bool
  When : Timestamp
deriving DecidableEq

/-- EditGroupStatus.Apply applies each asserted status bit and stamps the
metadata timestamp. -/
def EditGroupStatus.Apply (a : EditGroupStatus) (group : Group) : Group :=
  let g := if a.Public then { group with Private := false }
           else if a.Private then { group with Private := true }
           else group
  let g := if a.Open then { g with Closed := false }
           else if a.Closed then { g with Closed := true }
           else g
  { g with LastMetadataUpdate := a.When }

/-- Action is the closed taxonomy of moderation actions (`Action` interface of
`relay.go`, with its seven implementations). -/
inductive Action where
  | deleteEvent : DeleteEvent → Action
  | addUser : AddUser → Action
  | removeUser : RemoveUser → Action
  | editMetadata : EditMetadata → Action
  | addPermission : AddPermission → Action
  | removePermission : RemovePermission → Action
  | editGroupStatus : EditGroupStatus → Action
deriving DecidableEq

/-- Action.Apply dispatches to the variant's mutation. -/
def Action.Apply : Action → Group → Group
  | .deleteEvent a, g => a.Apply g
  | .addUser a, g => a.Apply g
  | .removeUser a, g => a.Apply g
  | .editMetadata a, g => a.Apply g
  | .addPermission a, g => a.Apply g
  | .removePermission a, g => a.Apply g
  | .editGroupStatus a, g => a.Apply g

/-- Factory for `KindSimpleGroupEditMetadata` events: each of the name,
picture and about tags present fills the corresponding field, absent tags
leave the zero-value empty string; at least one tag must be present. -/
def editMetadataFactory (evt : Event) : Except String EditMetadata :=
  let nameTag := GetFirst evt.Tags ["name", ""]
  let picTag := GetFirst evt.Tags ["picture", ""]
  let aboutTag := GetFirst evt.Tags ["about", ""]
  if nameTag.isSome || picTag.isSome || aboutTag.isSome then
    Except.ok
      { NameValue := match nameTag with | some t => t.getD 1 "" | none => ""
        PictureValue := match picTag with | some t => t.getD 1 "" | none => ""
        AboutValue := match aboutTag with | some t => t.getD 1 "" | none => ""
        When := evt.CreatedAt }
  else
    Except.error "missing metadata tags"

/-- Factory for `KindSimpleGroupEditGroupStatus` events: reads the four bare
marker tags, rejects contradictions and any assertion of `private`, otherwise
yields the action recording exactly the asserted markers. -/
def editGroupStatusFactory (evt : Event) : Except String EditGroupStatus :=
  let egs : EditGroupStatus :=
    { Public := (GetFirst evt.Tags ["public"]).isSome
      Private := (GetFirst evt.Tags ["private"]).isSome
      Open := (GetFirst evt.Tags ["open"]).isSome
      Closed := (GetFirst evt.Tags ["closed"]).isSome
      When := evt.CreatedAt }
  if egs.Public && egs.Private then
    Except.error "contradiction"
  else if egs.Open && egs.Closed then
    Except.error "contradiction"
  else if egs.Private then
    Except.error "private groups not yet supported"
  else
    Except.ok egs

/-- Fresh aggregate whose category timestamps sit at the minimum possible
value, as the round-trip property requires. -/
def freshGroup : Group :=
  { zeroGroup with
      LastMetadataUpdate := minTimestamp
      LastAdminsUpdate := minTimestamp
      LastMembersUpdate := minTimestamp }

/-- Serializes a group with the three projections and folds the three events
into `freshGroup`; `none` is the panic of `Group.ToAdminsEvent`.  Merge errors
leave the folded aggregate as it was, as they do for a Go caller. -/
def roundTrip (g : Group) : Option Group :=
  (g.ToAdminsEvent).map (fun adminsEvt =>
    (((freshGroup.MergeInMetadataEvent g.ToMetadataEvent).1.MergeInAdminsEvent
        adminsEvt).1.MergeInMembersEvent g.ToMembersEvent).1)

/-- Dispatches a snapshot event to the merge function of its category; events
of any other kind fall through to the members merge, which rejects them. -/
def applySnapshot (g : Group) (evt : Event) : Group × Option String :=
  if evt.Kind = KindSimpleGroupMetadata then g.MergeInMetadataEvent evt
  else if evt.Kind = KindSimpleGroupAdmins then g.MergeInAdminsEvent evt
  else g.MergeInMembersEvent evt

/-- Folds a sequence of snapshot events, keeping the aggregate unchanged on a
rejection, as a Go caller folding the stream would. -/
def foldEvents (g : Group) (evts : List Event) : Group :=
  evts.foldl (fun g e => (applySnapshot g e).1) g

/-- All three category timestamps of the second group are at least those of
the first. -/
def tsMonotone (g g' : Group) : Prop :=
  g.LastMetadataUpdate ≤ g'.LastMetadataUpdate ∧
  g.LastAdminsUpdate ≤ g'.LastAdminsUpdate ∧
  g.LastMembersUpdate ≤ g'.LastMembersUpdate

theorem mapLookup_mapInsert_self (m : Members) (k : String) (v : Option Role) :
    mapLookup (mapInsert m k v) k = some v := by
  induction m with
  | nil => simp [mapInsert, mapLookup]
  | cons hd tl ih =>
    obtain ⟨k', v'⟩ := hd
    by_cases h : k' = k <;> simp [mapInsert, mapLookup, h, ih]

theorem mapLookup_mapInsert_ne (m : Members) {k j : String} (v : Option Role) (h : k ≠ j) :
    mapLookup (mapInsert m k v) j = mapLookup m j := by
  induction m with
  | nil => simp [mapInsert, mapLookup, h]
  | cons hd tl ih =>
    obtain ⟨k', v'⟩ := hd
    by_cases hk : k' = k
    · subst hk
      simp [mapInsert, mapLookup, h]
    · by_cases hj : k' = j <;> simp [mapInsert, mapLookup, hk, hj, ih, Ne.symm h]

theorem mapInsert_idem (m : Members) (k : String) (v : Option Role) :
    mapInsert (mapInsert m k v) k v = mapInsert m k v := by
  induction m with
  | nil => simp [mapInsert]
  | cons hd tl ih =>
    obtain ⟨k', v'⟩ := hd
    by_cases h : k' = k <;> simp [mapInsert, h, ih]

/-- C9: applying `AddUser([k])` twice to the same aggregate yields the same
membership map as applying it once. -/
theorem addUser_idempotent (g : Group) (k : String) :
    (AddUser.Apply ⟨[k]⟩ (AddUser.Apply ⟨[k]⟩ g)).Members = (AddUser.Apply ⟨[k]⟩ g).Members := by
  simp [AddUser.Apply, mapInsert_idem]

/-- C4: evaluation of the code at the failing input.  On a group whose single
member holds a named role, `Group.ToAdminsEvent` hits the out-of-range write
`tag[0] = "p"` on the zero-length slice `make([]string, 0, …)` and panics
(`none`), instead of producing the admin `p` tag the claim describes. -/
theorem toAdminsEvent_panics_on_admin :
    Group.ToAdminsEvent { zeroGroup with Members := [("ab", some ⟨"boss", ∅⟩)] } = none := rfl

/-- C6 counterexample: an admins snapshot of the correct kind with a fresh
timestamp whose only participant entry carries the malformed identifier
`"nothex"` is accepted — the merge returns no error and records the category
timestamp — contradicting the claim that such an event is not accepted. -/
theorem mergeInAdminsEvent_accepts_malformed :
    (zeroGroup.MergeInAdminsEvent
        ⟨KindSimpleGroupAdmins, 1, "", [["p", "nothex", "r"]]⟩).2 = none ∧
    (zeroGroup.MergeInAdminsEvent
        ⟨KindSimpleGroupAdmins, 1, "", [["p", "nothex", "r"]]⟩).1.LastAdminsUpdate = 1 := by
  constructor <;> rfl

/-- C6 amended: for every admins or members snapshot event of the correct kind
with a strictly newer timestamp, the merge records the category timestamp and
accepts the event unconditionally; the per-entry identifier validation loop of
the source skips malformed entries without rejecting the event and changes
nothing else. -/
theorem merge_admins_members_accept_fresh (g : Group) (evt : Event) :
    (evt.Kind = KindSimpleGroupAdmins → g.LastAdminsUpdate < evt.CreatedAt →
      g.MergeInAdminsEvent evt = ({ g with LastAdminsUpdate := evt.CreatedAt }, none)) ∧
    (evt.Kind = KindSimpleGroupMembers → g.LastMembersUpdate < evt.CreatedAt →
      g.MergeInMembersEvent evt = ({ g with LastMembersUpdate := evt.CreatedAt }, none)) := by
  constructor <;> intro hk hf <;>
    simp [Group.MergeInAdminsEvent, Group.MergeInMembersEvent, hk, not_le.mpr hf]

/-- C6 amended, witness at the concrete malformed-entry input. -/
theorem merge_admins_members_accept_fresh_witness :
    zeroGroup.MergeInAdminsEvent ⟨KindSimpleGroupAdmins, 1, "", [["p", "nothex", "r"]]⟩ =
      ({ zeroGroup with LastAdminsUpdate := 1 }, none) :=
  (merge_admins_members_accept_fresh zeroGroup
    ⟨KindSimpleGroupAdmins, 1, "", [["p", "nothex", "r"]]⟩).1 rfl (by decide)

/-- C2 counterexample: the zero-value group accepts a first metadata event with
`d = "a"` (id becomes `"a"`), then accepts a second, newer metadata event with
`d = "b"`, and the id changes to `"b"` — so an accepted metadata snapshot does
change the id of an already-initialized group. -/
theorem group_id_changes_on_new_d :
    ((zeroGroup.MergeInMetadataEvent ⟨KindSimpleGroupMetadata, 1, "", [["d", "a"]]⟩).2 = none) ∧
    ((zeroGroup.MergeInMetadataEvent ⟨KindSimpleGroupMetadata, 1, "", [["d", "a"]]⟩).1.ID = "a") ∧
    (((zeroGroup.MergeInMetadataEvent ⟨KindSimpleGroupMetadata, 1, "", [["d", "a"]]⟩).1.MergeInMetadataEvent
        ⟨KindSimpleGroupMetadata, 2, "", [["d", "b"]]⟩).2 = none) ∧
    (((zeroGroup.MergeInMetadataEvent ⟨KindSimpleGroupMetadata, 1, "", [["d", "a"]]⟩).1.MergeInMetadataEvent
        ⟨KindSimpleGroupMetadata, 2, "", [["d", "b"]]⟩).1.ID = "b") := by
  refine ⟨rfl, rfl, rfl, rfl⟩

theorem mergeInMetadataEvent_accepted (g : Group) (evt : Event)
    (hk : evt.Kind = KindSimpleGroupMetadata) (hf : g.LastMetadataUpdate < evt.CreatedAt) :
    g.MergeInMetadataEvent evt =
      ({ g with
          LastMetadataUpdate := evt.CreatedAt
          ID := GetD evt.Tags
          Name := match GetFirst evt.Tags ["name", ""] with
            | some t => t.getD 1 ""
            | none => GetD evt.Tags
          About := match GetFirst evt.Tags ["about", ""] with
            | some t => t.getD 1 ""
            | none => g.About
          Picture := match GetFirst evt.Tags ["picture", ""] with
            | some t => t.getD 1 ""
            | none => g.Picture
          Private := g.Private || (GetFirst evt.Tags ["private"]).isSome
          Closed := g.Closed || (GetFirst evt.Tags ["closed"]).isSome }, none) := by
  simp only [Group.MergeInMetadataEvent, hk]
  rw [if_neg (by simp), if_neg (not_le.mpr hf)]
  rcases hn : GetFirst evt.Tags ["name", ""] with _ | t1 <;>
    rcases ha : GetFirst evt.Tags ["about", ""] with _ | t2 <;>
      rcases hp : GetFirst evt.Tags ["picture", ""] with _ | t3 <;>
        by_cases hv : (GetFirst evt.Tags ["private"]).isSome <;>
          by_cases hc : (GetFirst evt.Tags ["closed"]).isSome <;>
            simp_all [GetD]

theorem mergeInMetadataEvent_rejected (g : Group) (evt : Event)
    (h : ¬ (evt.Kind = KindSimpleGroupMetadata ∧ g.LastMetadataUpdate < evt.CreatedAt)) :
    (g.MergeInMetadataEvent evt).1 = g ∧ (g.MergeInMetadataEvent evt).2 ≠ none := by
  by_cases hk : evt.Kind = KindSimpleGroupMetadata
  · have hf : evt.CreatedAt ≤ g.LastMetadataUpdate := by
      rcases not_and.mp h hk |> not_lt.mp with hle
      exact hle
    simp [Group.MergeInMetadataEvent, hk, hf]
  · simp [Group.MergeInMetadataEvent, hk]

/-- C2 amended: the group id is rewritten by every accepted metadata event to
that event's `d`-tag value — so it is preserved exactly when later accepted
metadata events repeat the current `d` value — a rejected metadata event
leaves the whole group unchanged, and no moderation action ever changes the
id. -/
theorem group_id_overwritten_by_d (g : Group) (evt : Event) (a : Action) :
    ((g.MergeInMetadataEvent evt).2 = none → (g.MergeInMetadataEvent evt).1.ID = GetD evt.Tags) ∧
    ((g.MergeInMetadataEvent evt).2 ≠ none → (g.MergeInMetadataEvent evt).1 = g) ∧
    (a.Apply g).ID = g.ID := by
  refine ⟨?_, ?_, ?_⟩
  · intro hok
    by_cases h : evt.Kind = KindSimpleGroupMetadata ∧ g.LastMetadataUpdate < evt.CreatedAt
    · rw [mergeInMetadataEvent_accepted g evt h.1 h.2]
    · exact absurd hok (mergeInMetadataEvent_rejected g evt h).2
  · intro herr
    by_cases h : evt.Kind = KindSimpleGroupMetadata ∧ g.LastMetadataUpdate < evt.CreatedAt
    · rw [mergeInMetadataEvent_accepted g evt h.1 h.2] at herr
      simp at herr
    · exact (mergeInMetadataEvent_rejected g evt h).1
  · cases a <;>
      simp [Action.Apply, DeleteEvent.Apply, AddUser.Apply, RemoveUser.Apply,
        EditMetadata.Apply, AddPermission.Apply, RemovePermission.Apply,
        EditGroupStatus.Apply]
    split_ifs <;> rfl

/-- C2 amended, witness: the accepted first event sets the id to its `d`
value, and a moderation action leaves it alone. -/
theorem group_id_overwritten_by_d_witness :
    ((zeroGroup.MergeInMetadataEvent ⟨KindSimpleGroupMetadata, 1, "", [["d", "a"]]⟩).1.ID
        = GetD [["d", "a"]]) ∧
    (Action.Apply (Action.addUser ⟨["k"]⟩) zeroGroup).ID = zeroGroup.ID :=
  ⟨(group_id_overwritten_by_d zeroGroup ⟨KindSimpleGroupMetadata, 1, "", [["d", "a"]]⟩
      (Action.addUser ⟨["k"]⟩)).1 rfl,
   (group_id_overwritten_by_d zeroGroup ⟨KindSimpleGroupMetadata, 1, "", [["d", "a"]]⟩
      (Action.addUser ⟨["k"]⟩)).2.2⟩

theorem tsMonotone_refl (g : Group) : tsMonotone g g :=
  ⟨le_refl _, le_refl _, le_refl _⟩

theorem tsMonotone_trans {a b c : Group} (h1 : tsMonotone a b) (h2 : tsMonotone b c) :
    tsMonotone a c :=
  ⟨h1.1.trans h2.1, h1.2.1.trans h2.2.1, h1.2.2.trans h2.2.2⟩

theorem mergeInMetadataEvent_monotone (g : Group) (evt : Event) :
    tsMonotone g (g.MergeInMetadataEvent evt).1 := by
  by_cases h : evt.Kind = KindSimpleGroupMetadata ∧ g.LastMetadataUpdate < evt.CreatedAt
  · rw [mergeInMetadataEvent_accepted g evt h.1 h.2]
    exact ⟨le_of_lt h.2, le_refl _, le_refl _⟩
  · rw [(mergeInMetadataEvent_rejected g evt h).1]
    exact tsMonotone_refl g

theorem mergeInAdminsEvent_monotone (g : Group) (evt : Event) :
    tsMonotone g (g.MergeInAdminsEvent evt).1 := by
  unfold Group.MergeInAdminsEvent
  split_ifs with h1 h2
  · exact tsMonotone_refl g
  · exact tsMonotone_refl g
  · exact ⟨le_refl _, le_of_lt (not_le.mp h2), le_refl _⟩

theorem mergeInMembersEvent_monotone (g : Group) (evt : Event) :
    tsMonotone g (g.MergeInMembersEvent evt).1 := by
  unfold Group.MergeInMembersEvent
  split_ifs with h1 h2
  · exact tsMonotone_refl g
  · exact tsMonotone_refl g
  · exact ⟨le_refl _, le_refl _, le_of_lt (not_le.mp h2)⟩

theorem applySnapshot_monotone (g : Group) (evt : Event) :
    tsMonotone g (applySnapshot g evt).1 := by
  unfold applySnapshot
  split_ifs <;>
    first
      | exact mergeInMetadataEvent_monotone g evt
      | exact mergeInAdminsEvent_monotone g evt
      | exact mergeInMembersEvent_monotone g evt

theorem foldEvents_monotone (evts : List Event) (g : Group) :
    tsMonotone g (foldEvents g evts) := by
  induction evts generalizing g with
  | nil => exact tsMonotone_refl g
  | cons e rest ih =>
    exact tsMonotone_trans (applySnapshot_monotone g e) (ih (applySnapshot g e).1)

/-- C3: every merge of a metadata, admins or members snapshot keeps all three
category timestamps non-decreasing (hence any fold of such events does, last
conjunct); and a snapshot whose timestamp is at most the current recorded
value for its category is rejected with an error and leaves every field of
the aggregate unchanged. -/
theorem merge_monotone_stale_rejection (g : Group) (evt : Event) :
    tsMonotone g (g.MergeInMetadataEvent evt).1 ∧
    tsMonotone g (g.MergeInAdminsEvent evt).1 ∧
    tsMonotone g (g.MergeInMembersEvent evt).1 ∧
    (evt.CreatedAt ≤ g.LastMetadataUpdate →
      (g.MergeInMetadataEvent evt).1 = g ∧ (g.MergeInMetadataEvent evt).2 ≠ none) ∧
    (evt.CreatedAt ≤ g.LastAdminsUpdate →
      (g.MergeInAdminsEvent evt).1 = g ∧ (g.MergeInAdminsEvent evt).2 ≠ none) ∧
    (evt.CreatedAt ≤ g.LastMembersUpdate →
      (g.MergeInMembersEvent evt).1 = g ∧ (g.MergeInMembersEvent evt).2 ≠ none) ∧
    (∀ evts : List Event, tsMonotone g (foldEvents g evts)) := by
  refine ⟨mergeInMetadataEvent_monotone g evt, mergeInAdminsEvent_monotone g evt,
    mergeInMembersEvent_monotone g evt, ?_, ?_, ?_, fun evts => foldEvents_monotone evts g⟩
  · intro h
    exact mergeInMetadataEvent_rejected g evt (fun hx => absurd h (not_le.mpr hx.2))
  · intro h
    unfold Group.MergeInAdminsEvent
    split_ifs <;> simp_all
  · intro h
    unfold Group.MergeInMembersEvent
    split_ifs <;> simp_all

/-- C3 witness: a stale metadata event (its timestamp equals the recorded one)
is rejected and the zero group is returned untouched. -/
theorem merge_monotone_stale_rejection_witness :
    (zeroGroup.MergeInMetadataEvent ⟨KindSimpleGroupMetadata, 0, "", [["d", "a"]]⟩).1 = zeroGroup ∧
    (zeroGroup.MergeInMetadataEvent ⟨KindSimpleGroupMetadata, 0, "", [["d", "a"]]⟩).2 ≠ none :=
  (merge_monotone_stale_rejection zeroGroup
    ⟨KindSimpleGroupMetadata, 0, "", [["d", "a"]]⟩).2.2.2.1 (by decide)

theorem addPermissionStep_lookup_ne (P : List Permission) (m : Members) {t j : String}
    (h : t ≠ j) : mapLookup (addPermissionStep P m t) j = mapLookup m j := by
  unfold addPermissionStep
  exact mapLookup_mapInsert_ne m _ h

theorem addPermissionStep_fresh (P : List Permission) (m : Members) (k : String)
    (h : mapLookup m k = none ∨ mapLookup m k = some none) :
    mapLookup (addPermissionStep P m k) k =
      some (some { Name := "", Permissions := P.toFinset }) := by
  unfold addPermissionStep
  rcases h with h | h <;> rw [h] <;> simp [mapLookup_mapInsert_self]

theorem addPermissionStep_stable (P : List Permission) (m : Members) (k t : String)
    (h : mapLookup m k = some (some { Name := "", Permissions := P.toFinset })) :
    mapLookup (addPermissionStep P m t) k =
      some (some { Name := "", Permissions := P.toFinset }) := by
  by_cases ht : t = k
  · subst ht
    unfold addPermissionStep
    rw [h]
    simp [mapLookup_mapInsert_self]
  · rw [addPermissionStep_lookup_ne P m ht]
    exact h

theorem addPermission_foldl_stable (P : List Permission) (k : String) (ts : List String)
    (m : Members)
    (h : mapLookup m k = some (some { Name := "", Permissions := P.toFinset })) :
    mapLookup (ts.foldl (addPermissionStep P) m) k =
      some (some { Name := "", Permissions := P.toFinset }) := by
  induction ts generalizing m with
  | nil => exact h
  | cons t rest ih => exact ih _ (addPermissionStep_stable P m k t h)

theorem addPermission_foldl_fresh (P : List Permission) (k : String) (ts : List String)
    (m : Members) (hk : mapLookup m k = none ∨ mapLookup m k = some none)
    (hmem : k ∈ ts) :
    mapLookup (ts.foldl (addPermissionStep P) m) k =
      some (some { Name := "", Permissions := P.toFinset }) := by
  induction ts generalizing m with
  | nil => cases hmem
  | cons t rest ih =>
    by_cases ht : t = k
    · subst ht
      exact addPermission_foldl_stable P t rest _ (addPermissionStep_fresh P m t hk)
    · have hk' : mapLookup (addPermissionStep P m t) k = none ∨
          mapLookup (addPermissionStep P m t) k = some none := by
        rw [addPermissionStep_lookup_ne P m ht]
        exact hk
      exact ih _ hk' (by
        rcases List.mem_cons.mp hmem with h | h
        · exact absurd h.symm ht
        · exact h)

theorem addPermission_foldl_untouched (P : List Permission) (j : String) (ts : List String)
    (m : Members) (hj : j ∉ ts) :
    mapLookup (ts.foldl (addPermissionStep P) m) j = mapLookup m j := by
  induction ts generalizing m with
  | nil => rfl
  | cons t rest ih =>
    have hne : t ≠ j := fun h => hj (h ▸ List.mem_cons_self t rest)
    rw [List.foldl_cons, ih _ (fun h => hj (List.mem_cons_of_mem t h)),
      addPermissionStep_lookup_ne P m hne]

/-- C8: for every target of an `AddPermission` action that is absent from the
membership map or holds the empty-role sentinel, a fresh anonymous role is
allocated — the target ends up owning a role with empty name and exactly the
listed permissions, without any write through the shared sentinel — and every
key outside the target list keeps its previous membership entry (in
particular, other sentinel-role members still hold the unmodified
sentinel). -/
theorem addPermission_allocates_fresh_role (g : Group) (a : AddPermission) (k : String)
    (hk : mapLookup g.Members k = none ∨ mapLookup g.Members k = some none)
    (hmem : k ∈ a.Targets) :
    mapLookup (a.Apply g).Members k =
      some (some { Name := "", Permissions := a.Permissions.toFinset }) ∧
    ∀ j, j ∉ a.Targets → mapLookup (a.Apply g).Members j = mapLookup g.Members j := by
  constructor
  · exact addPermission_foldl_fresh a.Permissions k a.Targets g.Members hk hmem
  · intro j hj
    exact addPermission_foldl_untouched a.Permissions j a.Targets g.Members hj

/-- C8 witness: granting `add-user` to the absent target `"k"` allocates an
anonymous role holding exactly that permission, and the untargeted sentinel
member `"m"` keeps the sentinel. -/
theorem addPermission_allocates_fresh_role_witness :
    mapLookup (AddPermission.Apply ⟨["k"], ["add-user"]⟩
        { zeroGroup with Members := [("m", none)] }).Members "k" =
      some (some { Name := "", Permissions := (["add-user"] : List Permission).toFinset }) ∧
    mapLookup (AddPermission.Apply ⟨["k"], ["add-user"]⟩
        { zeroGroup with Members := [("m", none)] }).Members "m" =
      mapLookup [("m", none)] "m" :=
  ⟨(addPermission_allocates_fresh_role { zeroGroup with Members := [("m", none)] }
      ⟨["k"], ["add-user"]⟩ "k" (Or.inl rfl) (by decide)).1,
   (addPermission_allocates_fresh_role { zeroGroup with Members := [("m", none)] }
      ⟨["k"], ["add-user"]⟩ "k" (Or.inl rfl) (by decide)).2 "m" (by decide)⟩

theorem removePermissionStep_lookup_ne (P : List Permission) (m : Members) {t j : String}
    (h : t ≠ j) : mapLookup (removePermissionStep P m t) j = mapLookup m j := by
  unfold removePermissionStep
  rcases hm : mapLookup m t with _ | v
  · rfl
  · rcases v with _ | r
    · rfl
    · dsimp only
      split_ifs <;> exact mapLookup_mapInsert_ne m _ h

theorem removePermissionStep_sentinel (P : List Permission) (m : Members) (k t : String)
    (h : mapLookup m k = some none) :
    mapLookup (removePermissionStep P m t) k = some none := by
  by_cases ht : t = k
  · subst ht
    unfold removePermissionStep
    rw [h]
    exact h
  · rw [removePermissionStep_lookup_ne P m ht]
    exact h

theorem removePermissionStep_named (P : List Permission) (m : Members) (k t : String)
    (r : Role) (h : mapLookup m k = some (some r)) (hn : r.Name ≠ "") :
    ∃ r', mapLookup (removePermissionStep P m t) k = some (some r') ∧ r'.Name = r.Name := by
  by_cases ht : t = k
  · subst ht
    unfold removePermissionStep
    rw [h]
    dsimp only
    rw [if_neg (fun hc => hn hc.1)]
    exact ⟨_, mapLookup_mapInsert_self m t _, rfl⟩
  · rw [removePermissionStep_lookup_ne P m ht]
    exact ⟨r, h, rfl⟩

theorem removePermission_foldl_sentinel (P : List Permission) (k : String) (ts : List String)
    (m : Members) (h : mapLookup m k = some none) :
    mapLookup (ts.foldl (removePermissionStep P) m) k = some none := by
  induction ts generalizing m with
  | nil => exact h
  | cons t rest ih => exact ih _ (removePermissionStep_sentinel P m k t h)

theorem removePermission_foldl_named (P : List Permission) (k : String) (ts : List String)
    (m : Members) (r : Role) (h : mapLookup m k = some (some r)) (hn : r.Name ≠ "") :
    ∃ r', mapLookup (ts.foldl (removePermissionStep P) m) k = some (some r') ∧
      r'.Name = r.Name := by
  induction ts generalizing m r with
  | nil => exact ⟨r, h, rfl⟩
  | cons t rest ih =>
    obtain ⟨r1, h1, hname⟩ := removePermissionStep_named P m k t r h hn
    obtain ⟨r2, h2, hname2⟩ := ih _ r1 h1 (hname ▸ hn)
    exact ⟨r2, h2, hname2.trans hname⟩

/-- C5: a target holding an unnamed owned role whose whole permission set is
covered by a `RemovePermission` action ends up holding the shared empty-role
sentinel (`nil`, modelled as `none`); a target holding a named role is never
demoted to the sentinel by `RemovePermission`, even when its permission set
is drained, and its role keeps its name. -/
theorem removePermission_sentinel_demotion (g : Group) (a : RemovePermission) (k : String)
    (r : Role) (hlk : mapLookup g.Members k = some (some r)) (hmem : k ∈ a.Targets) :
    (r.Name = "" → r.Permissions ⊆ a.Permissions.toFinset →
      mapLookup (a.Apply g).Members k = some none) ∧
    (r.Name ≠ "" →
      ∃ r', mapLookup (a.Apply g).Members k = some (some r') ∧ r'.Name = r.Name) := by
  have main : ∀ (ts : List String) (m : Members), mapLookup m k = some (some r) → k ∈ ts →
      (r.Name = "" → r.Permissions ⊆ a.Permissions.toFinset →
        mapLookup (ts.foldl (removePermissionStep a.Permissions) m) k = some none) ∧
      (r.Name ≠ "" →
        ∃ r', mapLookup (ts.foldl (removePermissionStep a.Permissions) m) k = some (some r') ∧
          r'.Name = r.Name) := by
    intro ts
    induction ts with
    | nil => intro m _ hm; cases hm
    | cons t rest ih =>
      intro m hl hm
      by_cases ht : t = k
      · subst ht
        constructor
        · intro hname hsub
          have hstep : mapLookup (removePermissionStep a.Permissions m t) t = some none := by
            unfold removePermissionStep
            rw [hl]
            dsimp only
            rw [if_pos ⟨hname, Finset.sdiff_eq_empty_iff_subset.mpr hsub⟩]
            exact mapLookup_mapInsert_self m t none
          exact removePermission_foldl_sentinel a.Permissions t rest _ hstep
        · intro hname
          obtain ⟨r1, h1, hname1⟩ := removePermissionStep_named a.Permissions m t t r hl hname
          obtain ⟨r2, h2, hname2⟩ :=
            removePermission_foldl_named a.Permissions t rest _ r1 h1 (hname1 ▸ hname)
          exact ⟨r2, h2, hname2.trans hname1⟩
      · have hl' : mapLookup (removePermissionStep a.Permissions m t) k = some (some r) := by
          rw [removePermissionStep_lookup_ne a.Permissions m ht]
          exact hl
        exact ih _ hl' (by
          rcases List.mem_cons.mp hm with h | h
          · exact absurd h.symm ht
          · exact h)
  exact main a.Targets g.Members hlk hmem

/-- C5 witness: draining `add-user` from the unnamed role of `"k"` demotes it
to the sentinel, while draining it from the named role of `"b"` leaves a
named role in place. -/
theorem removePermission_sentinel_demotion_witness :
    mapLookup (RemovePermission.Apply ⟨["k"], ["add-user"]⟩
        { zeroGroup with
            Members := [("k", some { Name := "", Permissions := {"add-user"} })] }).Members "k" =
      some none ∧
    ∃ r', mapLookup (RemovePermission.Apply ⟨["b"], ["add-user"]⟩
        { zeroGroup with
            Members := [("b", some { Name := "boss", Permissions := {"add-user"} })] }).Members "b" =
      some (some r') ∧ r'.Name = "boss" :=
  ⟨(removePermission_sentinel_demotion
      { zeroGroup with
          Members := [("k", some { Name := "", Permissions := {"add-user"} })] }
      ⟨["k"], ["add-user"]⟩ "k" { Name := "", Permissions := {"add-user"} }
      rfl (by decide)).1 rfl (by decide),
   (removePermission_sentinel_demotion
      { zeroGroup with
          Members := [("b", some { Name := "boss", Permissions := {"add-user"} })] }
      ⟨["b"], ["add-user"]⟩ "b" { Name := "boss", Permissions := {"add-user"} }
      rfl (by decide)).2 (by decide)⟩

theorem mergeInAdminsEvent_accepted (g : Group) (evt : Event)
    (hk : evt.Kind = KindSimpleGroupAdmins) (hf : g.LastAdminsUpdate < evt.CreatedAt) :
    g.MergeInAdminsEvent evt = ({ g with LastAdminsUpdate := evt.CreatedAt }, none) := by
  simp [Group.MergeInAdminsEvent, hk, not_le.mpr hf]

theorem mergeInMembersEvent_accepted (g : Group) (evt : Event)
    (hk : evt.Kind = KindSimpleGroupMembers) (hf : g.LastMembersUpdate < evt.CreatedAt) :
    g.MergeInMembersEvent evt = ({ g with LastMembersUpdate := evt.CreatedAt }, none) := by
  simp [Group.MergeInMembersEvent, hk, not_le.mpr hf]

theorem toAdminsEvent_empty (g : Group) (h : g.Members = []) :
    g.ToAdminsEvent = some ⟨KindSimpleGroupAdmins, g.LastAdminsUpdate, "", [["d", g.ID]]⟩ := by
  unfold Group.ToAdminsEvent
  rw [h]
  rfl

theorem mergeInAdminsEvent_preserves (g : Group) (evt : Event) :
    (g.MergeInAdminsEvent evt).1.ID = g.ID ∧
    (g.MergeInAdminsEvent evt).1.Name = g.Name ∧
    (g.MergeInAdminsEvent evt).1.About = g.About ∧
    (g.MergeInAdminsEvent evt).1.Picture = g.Picture ∧
    (g.MergeInAdminsEvent evt).1.Private = g.Private ∧
    (g.MergeInAdminsEvent evt).1.Closed = g.Closed ∧
    (g.MergeInAdminsEvent evt).1.Members = g.Members := by
  unfold Group.MergeInAdminsEvent
  split_ifs <;> simp

theorem mergeInMembersEvent_preserves (g : Group) (evt : Event) :
    (g.MergeInMembersEvent evt).1.ID = g.ID ∧
    (g.MergeInMembersEvent evt).1.Name = g.Name ∧
    (g.MergeInMembersEvent evt).1.About = g.About ∧
    (g.MergeInMembersEvent evt).1.Picture = g.Picture ∧
    (g.MergeInMembersEvent evt).1.Private = g.Private ∧
    (g.MergeInMembersEvent evt).1.Closed = g.Closed ∧
    (g.MergeInMembersEvent evt).1.Members = g.Members := by
  unfold Group.MergeInMembersEvent
  split_ifs <;> simp

theorem metaTags_lookups (g : Group) :
    GetD (Group.ToMetadataEvent g).Tags = g.ID ∧
    GetFirst (Group.ToMetadataEvent g).Tags ["name", ""] =
      (if g.Name = "" then none else some ["name", g.Name]) ∧
    GetFirst (Group.ToMetadataEvent g).Tags ["about", ""] =
      (if g.About = "" then none else some ["about", g.Name]) ∧
    GetFirst (Group.ToMetadataEvent g).Tags ["picture", ""] =
      (if g.Picture = "" then none else some ["picture", g.Picture]) ∧
    (GetFirst (Group.ToMetadataEvent g).Tags ["private"]).isSome = g.Private ∧
    (GetFirst (Group.ToMetadataEvent g).Tags ["closed"]).isSome = g.Closed := by
  by_cases hn : g.Name = "" <;> by_cases ha : g.About = "" <;> by_cases hp : g.Picture = "" <;>
    cases hv : g.Private <;> cases hc : g.Closed <;>
      simp [Group.ToMetadataEvent, GetD, GetFirst, List.find?, tagStartsWith, hn, ha, hp, hv, hc]

/-- C1 counterexample: for the group with id `"g1"`, empty name, about `"a"`,
picture `"p"`, one ordinary member `"k"`, closed status and all timestamps 1,
the round trip through the three projections and merges yields a group whose
name, about and membership all differ from the original (the merges never
repopulate membership, the empty name comes back as the id, and the about tag
carries the name). -/
theorem roundTrip_not_identity :
    ((roundTrip { zeroGroup with
        ID := "g1", Name := "", About := "a", Picture := "p"
        Members := [("k", none)], Closed := true
        LastMetadataUpdate := 1, LastAdminsUpdate := 1, LastMembersUpdate := 1 }).map
          Group.Name ≠ some "") ∧
    ((roundTrip { zeroGroup with
        ID := "g1", Name := "", About := "a", Picture := "p"
        Members := [("k", none)], Closed := true
        LastMetadataUpdate := 1, LastAdminsUpdate := 1, LastMembersUpdate := 1 }).map
          Group.About ≠ some "a") ∧
    ((roundTrip { zeroGroup with
        ID := "g1", Name := "", About := "a", Picture := "p"
        Members := [("k", none)], Closed := true
        LastMetadataUpdate := 1, LastAdminsUpdate := 1, LastMembersUpdate := 1 }).map
          Group.Members ≠ some [("k", none)]) := by
  refine ⟨by decide, by decide, by decide⟩

/-- C1 amended: the round trip restores id, picture, and the status flags in
general, but name, about and membership only under the conditions the code's
behaviour forces: the original membership must be empty (the admins/members
merges never repopulate the membership map, and the admins projection panics
on any admin), the about must be empty or equal to the name (the metadata
projection writes the name into the about tag), and the name must be nonempty
or the id empty (an absent name tag makes the merge default the name to the
id); the original timestamps must also sit strictly above the fresh
aggregate's minimal timestamps for the snapshots to be accepted. -/
theorem roundTrip_restricted (g : Group)
    (h1 : g.Members = [])
    (h2 : g.About = "" ∨ g.About = g.Name)
    (h3 : g.Name ≠ "" ∨ g.ID = "")
    (h4 : minTimestamp < g.LastMetadataUpdate)
    (_h5 : minTimestamp < g.LastAdminsUpdate)
    (_h6 : minTimestamp < g.LastMembersUpdate) :
    ∃ g', roundTrip g = some g' ∧ g'.ID = g.ID ∧ g'.Name = g.Name ∧ g'.About = g.About ∧
      g'.Picture = g.Picture ∧ g'.Private = g.Private ∧ g'.Closed = g.Closed ∧
      g'.Members = g.Members := by
  obtain ⟨hd, hname, habout, hpic, hpriv, hclosed⟩ := metaTags_lookups g
  have hmeta := mergeInMetadataEvent_accepted freshGroup (Group.ToMetadataEvent g) rfl h4
  unfold roundTrip
  rw [toAdminsEvent_empty g h1, Option.map_some']
  refine ⟨_, rfl, ?_, ?_, ?_, ?_, ?_, ?_, ?_⟩
  · rw [(mergeInMembersEvent_preserves _ _).1, (mergeInAdminsEvent_preserves _ _).1, hmeta]
    exact hd
  · rw [(mergeInMembersEvent_preserves _ _).2.1, (mergeInAdminsEvent_preserves _ _).2.1, hmeta]
    show (match GetFirst (Group.ToMetadataEvent g).Tags ["name", ""] with
          | some t => t.getD 1 ""
          | none => GetD (Group.ToMetadataEvent g).Tags) = g.Name
    rw [hname, hd]
    by_cases hn : g.Name = ""
    · rcases h3 with h3 | h3
      · exact absurd hn h3
      · simp [hn, h3]
    · simp [hn]
  · rw [(mergeInMembersEvent_preserves _ _).2.2.1, (mergeInAdminsEvent_preserves _ _).2.2.1,
      hmeta]
    show (match GetFirst (Group.ToMetadataEvent g).Tags ["about", ""] with
          | some t => t.getD 1 ""
          | none => freshGroup.About) = g.About
    rw [habout]
    by_cases ha : g.About = ""
    · simp [ha, freshGroup, zeroGroup]
    · rcases h2 with h2 | h2
      · exact absurd h2 ha
      · have hn : g.Name ≠ "" := fun hh => ha (h2.trans hh)
        simp [ha, h2, hn]
  · rw [(mergeInMembersEvent_preserves _ _).2.2.2.1, (mergeInAdminsEvent_preserves _ _).2.2.2.1,
      hmeta]
    show (match GetFirst (Group.ToMetadataEvent g).Tags ["picture", ""] with
          | some t => t.getD 1 ""
          | none => freshGroup.Picture) = g.Picture
    rw [hpic]
    by_cases hp : g.Picture = "" <;> simp [hp, freshGroup, zeroGroup]
  · rw [(mergeInMembersEvent_preserves _ _).2.2.2.2.1,
      (mergeInAdminsEvent_preserves _ _).2.2.2.2.1, hmeta]
    show (freshGroup.Private || (GetFirst (Group.ToMetadataEvent g).Tags ["private"]).isSome)
        = g.Private
    rw [hpriv]
    simp [freshGroup, zeroGroup]
  · rw [(mergeInMembersEvent_preserves _ _).2.2.2.2.2.1,
      (mergeInAdminsEvent_preserves _ _).2.2.2.2.2.1, hmeta]
    show (freshGroup.Closed || (GetFirst (Group.ToMetadataEvent g).Tags ["closed"]).isSome)
        = g.Closed
    rw [hclosed]
    simp [freshGroup, zeroGroup]
  · rw [(mergeInMembersEvent_preserves _ _).2.2.2.2.2.2,
      (mergeInAdminsEvent_preserves _ _).2.2.2.2.2.2, hmeta]
    show freshGroup.Members = g.Members
    rw [h1]
    simp [freshGroup, zeroGroup]

/-- C1 amended, witness: a concrete group with empty membership, about equal
to name, nonempty name and timestamps above the minimum round-trips onto
itself on all the listed fields. -/
theorem roundTrip_restricted_witness :
    ∃ g', roundTrip { zeroGroup with
        ID := "g1", Name := "n", About := "n", Picture := "p"
        Private := true, LastMetadataUpdate := 1, LastAdminsUpdate := 2
        LastMembersUpdate := 3 } = some g' ∧
      g'.ID = "g1" ∧ g'.Name = "n" ∧ g'.About = "n" ∧ g'.Picture = "p" ∧
      g'.Private = true ∧ g'.Closed = false ∧ g'.Members = [] :=
  roundTrip_restricted
    { zeroGroup with
      ID := "g1", Name := "n", About := "n", Picture := "p"
      Private := true, LastMetadataUpdate := 1, LastAdminsUpdate := 2
      LastMembersUpdate := 3 }
    rfl (Or.inr rfl) (Or.inl (by decide)) (by decide) (by decide) (by decide)

/-- C7: the edit-group-status factory rejects with an error whenever both the
public and private markers are present, or both the open and closed markers
are present, or the private marker is asserted at all; otherwise it yields an
`EditGroupStatus` action recording exactly the asserted markers and the
event's timestamp. -/
theorem editGroupStatusFactory_spec (evt : Event) :
    ((GetFirst evt.Tags ["public"]).isSome = true ∧ (GetFirst evt.Tags ["private"]).isSome = true →
      ∃ msg, editGroupStatusFactory evt = Except.error msg) ∧
    ((GetFirst evt.Tags ["open"]).isSome = true ∧ (GetFirst evt.Tags ["closed"]).isSome = true →
      ∃ msg, editGroupStatusFactory evt = Except.error msg) ∧
    ((GetFirst evt.Tags ["private"]).isSome = true →
      ∃ msg, editGroupStatusFactory evt = Except.error msg) ∧
    ((GetFirst evt.Tags ["private"]).isSome = false →
      ((GetFirst evt.Tags ["open"]).isSome = false ∨ (GetFirst evt.Tags ["closed"]).isSome = false) →
      editGroupStatusFactory evt = Except.ok
        { Public := (GetFirst evt.Tags ["public"]).isSome
          Private := (GetFirst evt.Tags ["private"]).isSome
          Open := (GetFirst evt.Tags ["open"]).isSome
          Closed := (GetFirst evt.Tags ["closed"]).isSome
          When := evt.CreatedAt }) := by
  unfold editGroupStatusFactory
  rcases hpub : (GetFirst evt.Tags ["public"]).isSome <;>
    rcases hpriv : (GetFirst evt.Tags ["private"]).isSome <;>
      rcases hop : (GetFirst evt.Tags ["open"]).isSome <;>
        rcases hcl : (GetFirst evt.Tags ["closed"]).isSome <;>
          simp [hpub, hpriv, hop, hcl]

/-- C7 witness: a concrete event asserting `public` and `closed` only, parsed
into the action recording exactly those markers. -/
theorem editGroupStatusFactory_spec_witness :
    editGroupStatusFactory ⟨KindSimpleGroupEditGroupStatus, 5, "", [["public"], ["closed"]]⟩ =
      Except.ok { Public := true, Private := false, Open := false, Closed := true, When := 5 } :=
  (editGroupStatusFactory_spec
    ⟨KindSimpleGroupEditGroupStatus, 5, "", [["public"], ["closed"]]⟩).2.2.2 rfl (Or.inl rfl)

/-- C10: an `EditMetadata` action parsed from an event, when applied to any
aggregate, sets each of the name, about and picture fields to the value of the
corresponding tag when present and to the empty string when the tag is absent
— fields whose tags were absent are reset, not left unchanged — and stamps the
metadata timestamp with the event's timestamp. -/
theorem editMetadata_overwrites_unconditionally (evt : Event) (g : Group) (em : EditMetadata)
    (h : editMetadataFactory evt = Except.ok em) :
    (em.Apply g).Name =
      (match GetFirst evt.Tags ["name", ""] with | some t => t.getD 1 "" | none => "") ∧
    (em.Apply g).Picture =
      (match GetFirst evt.Tags ["picture", ""] with | some t => t.getD 1 "" | none => "") ∧
    (em.Apply g).About =
      (match GetFirst evt.Tags ["about", ""] with | some t => t.getD 1 "" | none => "") ∧
    (em.Apply g).LastMetadataUpdate = evt.CreatedAt := by
  simp only [editMetadataFactory] at h
  split at h
  · rw [Except.ok.injEq] at h
    subst h
    simp [EditMetadata.Apply]
  · exact absurd h (by simp)

/-- C10 witness: an event carrying only a `name` tag, applied to a group whose
about and picture are nonempty, resets about and picture to the empty
string. -/
theorem editMetadata_overwrites_unconditionally_witness :
    (EditMetadata.Apply ⟨"x", "", "", 7⟩
        { zeroGroup with About := "keep?", Picture := "pic" }).Name = "x" ∧
    (EditMetadata.Apply ⟨"x", "", "", 7⟩
        { zeroGroup with About := "keep?", Picture := "pic" }).Picture = "" ∧
    (EditMetadata.Apply ⟨"x", "", "", 7⟩
        { zeroGroup with About := "keep?", Picture := "pic" }).About = "" ∧
    (EditMetadata.Apply ⟨"x", "", "", 7⟩
        { zeroGroup with About := "keep?", Picture := "pic" }).LastMetadataUpdate = 7 :=
  editMetadata_overwrites_unconditionally
    ⟨KindSimpleGroupEditMetadata, 7, "", [["name", "x"]]⟩
    { zeroGroup with About := "keep?", Picture := "pic" } ⟨"x", "", "", 7⟩ rfl

end Nip29

